import Mathlib

/-!
Verification development for the excerpt-location / citation-injection core of
the studyFetchAI repository.

The embedding models three source components:
* the PDF-search route (`POST` in the enhanced multi-strategy variant and the
  segment-list variant of `src/unnamed/part_002`) as `locateV1` / `locateV2`,
* the citation injector `injectPageCitations` of `src/unnamed/part_011`,
* the chat orchestration route `POST` of `src/src/app/api/chat/route.ts` as
  `chatPost`.

Strings are modelled as `List Char`.  Page coordinates (JavaScript numbers)
are modelled as integers: every operation the routes apply to coordinates
(comparison, `Math.min`/`Math.max`, addition, subtraction, `Math.round`)
coincides with the JavaScript floating-point behaviour whenever the
coordinates are integral, and `Math.round` is then the identity (`jsRound`).  The external MuPDF page
search primitive `page.search` is a parameter of type `SearchFn`; a `none`
result models the primitive throwing (the `catch` branches), a `some` result
is the returned list of quad-point groups.  Provenance and presentation
fields of an annotation that no algorithmic step reads (`id` — built from
wall-clock time —, `type`, `color`, `opacity`, `createdAt`, `documentId`) are
not modelled.
-/

namespace StudyFetch

/-- The character strings of the JavaScript source, as lists of characters. -/
abbrev Str := List Char

/-- ASCII whitespace, modelling the JavaScript `\s` class and `trim` on the
inputs considered (the JS versions also accept rarer Unicode whitespace). -/
def isWs (c : Char) : Bool :=
  c = ' ' || c = '\t' || c = '\n' || c = '\r'

/-- Sentence-terminating punctuation: the class `[.!?]` used in the source's
regexes. -/
def isTerm (c : Char) : Bool :=
  c = '.' || c = '!' || c = '?'

/-- `String.prototype.trim`: strip whitespace from both ends. -/
def jsTrim (s : Str) : Str :=
  ((s.dropWhile isWs).reverse.dropWhile isWs).reverse

/-- Prepend a character to the first piece of a split result (helper for the
split functions below). -/
def consHead (c : Char) : List Str → List Str
  | [] => [[c]]
  | s :: ss => (c :: s) :: ss

/-- Is the first character whitespace? -/
def headIsWs : Str → Bool
  | [] => false
  | c :: _ => isWs c

/-- Worker for `jsSplitWs`; the flag records whether the previous character
was part of a whitespace run (so further whitespace extends the same
separator instead of opening a new empty piece). -/
def jsSplitWsF (prevWs : Bool) : Str → List Str
  | [] => [[]]
  | c :: cs =>
    if isWs c then
      if prevWs then jsSplitWsF true cs else [] :: jsSplitWsF true cs
    else consHead c (jsSplitWsF false cs)

/-- `s.split(/\s+/)`: split on maximal whitespace runs.  As in JavaScript,
leading or trailing whitespace yields an empty first or last piece and the
empty string splits to `[""]`. -/
def jsSplitWs (s : Str) : List Str :=
  jsSplitWsF false s

/-- Worker for `jsSplitSent`; the flag records that a separator's greedy
`\s+` run is still being consumed. -/
def jsSplitSentF (inSep : Bool) : Str → List Str
  | [] => [[]]
  | c :: cs =>
    if inSep && isWs c then jsSplitSentF true cs
    else if isTerm c && headIsWs cs then [] :: jsSplitSentF true cs
    else consHead c (jsSplitSentF false cs)

/-- `s.split(/[.!?]\s+/)`: split on a sentence terminator followed by a
maximal whitespace run (the separator, terminator included, is consumed). -/
def jsSplitSent (s : Str) : List Str :=
  jsSplitSentF false s

/-- `s.split(". ")` from the chat route: split on the literal two-character
separator.  `"".split(". ")` is `[""]`. -/
def splitPeriodSpace (s : Str) : List Str :=
  match s with
  | [] => [[]]
  | [c] => [[c]]
  | c :: d :: rest =>
    if c = '.' ∧ d = ' ' then [] :: splitPeriodSpace rest
    else consHead c (splitPeriodSpace (d :: rest))

/-- Joining inverse of `splitPeriodSpace`, used to state that the chat route
splits exactly on `". "`. -/
def joinPeriodSpace : List Str → Str
  | [] => []
  | [s] => s
  | s :: ss => s ++ '.' :: ' ' :: joinPeriodSpace ss

/-- `list.join(sep)` of JavaScript. -/
def joinSepL (sep : Str) : List Str → Str
  | [] => []
  | [s] => s
  | s :: ss => s ++ sep ++ joinSepL sep ss

/-- `words.join(' ')`. -/
def joinSpace (ws : List Str) : Str :=
  joinSepL [' '] ws

/-- Decimal digit character (only applied to values below 10). -/
def digitChar : Nat → Char
  | 0 => '0'
  | 1 => '1'
  | 2 => '2'
  | 3 => '3'
  | 4 => '4'
  | 5 => '5'
  | 6 => '6'
  | 7 => '7'
  | 8 => '8'
  | _ => '9'

/-- Substring test: `hay.includes(needle)` of JavaScript. -/
def isSubL (n : Str) : Str → Bool
  | [] => n.isEmpty
  | c :: t => n.isPrefixOf (c :: t) || isSubL n t

/-- `s.toLowerCase()` (ASCII case mapping suffices for the matching here). -/
def toLowerL (s : Str) : Str :=
  s.map Char.toLower

/-! ## Data model of the Locator -/

/-- One quad returned by `page.search`: `[ulx, uly, urx, ury, llx, lly, lrx,
lry]`. -/
structure Quad where
  ulx : ℤ
  uly : ℤ
  urx : ℤ
  ury : ℤ
  llx : ℤ
  lly : ℤ
  lrx : ℤ
  lry : ℤ
deriving DecidableEq, Repr

/-- An axis-aligned bounding box `{x, y, width, height}`. -/
structure Box where
  x : ℤ
  y : ℤ
  width : ℤ
  height : ℤ
deriving DecidableEq, Repr

/-- Which search strategy of the enhanced variant produced a highlight (the
source tags annotations with the strings `"full_excerpt"`, `"sentence"`,
`"phrase"`). -/
inductive Strat where
  | fullExcerpt
  | sentence
  | phrase
deriving DecidableEq, Repr

/-- A highlight annotation, restricted to the fields the algorithm reads.
`strategy` is `some _` for the enhanced variant and `none` for the
segment-list variant (which has no strategy field). -/
structure Ann where
  pageNumber : Nat
  coordinates : Box
  excerpt : Str
  strategy : Option Strat
deriving DecidableEq, Repr

/-- `Math.round`: on the integral coordinates of this embedding, rounding is
the identity. -/
def jsRound (q : ℤ) : Int :=
  q

/-- The axis-aligned envelope of a quad, exactly as computed in both variants
of the search route. -/
def boxOfQuad (q : Quad) : Box :=
  { x := min q.ulx q.llx
    y := min q.uly q.ury
    width := max q.urx q.lrx - min q.ulx q.llx
    height := max q.lly q.lry - min q.uly q.ury }

/-- The external text-search primitive: page index and query to either a
thrown error (`none`) or a list of quad-point groups. -/
abbrev SearchFn := Nat → Str → Option (List (List Quad))

/-- Locator state threaded through the page/excerpt loops: accepted
annotations, the `processedCoordinates` key set of the enhanced variant, and
the trace of issued `page.search` calls. -/
structure LocSt where
  anns : List Ann
  processed : List (Nat × Int × Int)
  calls : List (Nat × Str)
deriving DecidableEq, Repr

/-- The overlap test of the sentence/phrase strategies: same page and the
two boxes intersect after expanding by the 10-unit tolerance. -/
def overlapsExisting (pg1 : Nat) (x y w h : ℤ) (a : Ann) : Bool :=
  if a.pageNumber ≠ pg1 then false
  else !(decide (x > a.coordinates.x + a.coordinates.width + 10)
      || decide (a.coordinates.x > x + w + 10)
      || decide (y > a.coordinates.y + a.coordinates.height + 10)
      || decide (a.coordinates.y > y + h + 10))

/-- Strategy 1 per-quad processing: deduplicate on the coordinate key
`${pageNum+1}-${Math.round(ulx)}-${Math.round(uly)}` and accept. -/
def s1Quad (pg : Nat) (e : Str) (st : LocSt) (q : Quad) : LocSt :=
  let key : Nat × Int × Int := (pg + 1, jsRound q.ulx, jsRound q.uly)
  if key ∈ st.processed then st
  else
    { st with
      processed := st.processed ++ [key]
      anns := st.anns ++
        [{ pageNumber := pg + 1, coordinates := boxOfQuad q, excerpt := e
           strategy := some Strat.fullExcerpt }] }

/-- Sentence/phrase per-quad processing: compute the envelope, reject if it
overlaps any already-accepted annotation on the page, else accept. -/
def checkedQuad (strat : Strat) (pg : Nat) (seg : Str) (st : LocSt) (q : Quad) :
    LocSt :=
  let x := min q.ulx q.llx
  let y := min q.uly q.ury
  let width := max q.urx q.lrx - min q.ulx q.llx
  let height := max q.lly q.lry - min q.uly q.ury
  if st.anns.any (overlapsExisting (pg + 1) x y width height) then st
  else
    { st with
      anns := st.anns ++
        [{ pageNumber := pg + 1, coordinates := ⟨x, y, width, height⟩
           excerpt := seg, strategy := some strat }] }

/-- Iterate a per-quad action over the quad-point groups of a search result. -/
def foldQuads (f : LocSt → Quad → LocSt) (st : LocSt)
    (results : List (List Quad)) : LocSt :=
  results.foldl (fun st qps => qps.foldl f st) st

/-- Strategy 1: search the trimmed full excerpt (a thrown search is caught
and skipped). -/
def s1 (sp : SearchFn) (pg : Nat) (e : Str) (st : LocSt) : LocSt :=
  let q := jsTrim e
  let st1 := { st with calls := st.calls ++ [(pg, q)] }
  match sp pg q with
  | none => st1
  | some results => foldQuads (s1Quad pg e) st1 results

/-- One sentence of strategy 2: search the trimmed sentence, accept
non-overlapping quads. -/
def s2sentence (sp : SearchFn) (pg : Nat) (st : LocSt) (s : Str) : LocSt :=
  let q := jsTrim s
  let st1 := { st with calls := st.calls ++ [(pg, q)] }
  match sp pg q with
  | none => st1
  | some results => foldQuads (checkedQuad Strat.sentence pg s) st1 results

/-- Strategy 2: split the excerpt into sentences, keep those whose trimmed
length exceeds 15, search each. -/
def s2 (sp : SearchFn) (pg : Nat) (e : Str) (st : LocSt) : LocSt :=
  ((jsSplitSent e).filter (fun s => 15 < (jsTrim s).length)).foldl
    (s2sentence sp pg) st

/-- Strategy 3: slide a 6-to-12-word window over the excerpt's word list and
search every rendered phrase longer than 20 characters. -/
def s3 (sp : SearchFn) (pg : Nat) (e : Str) (st : LocSt) : LocSt :=
  let words := jsSplitWs e
  if words.length < 6 then st
  else
    (List.range (words.length - 5)).foldl
      (fun st i =>
        let phrase := joinSpace ((words.drop i).take (min 12 (words.length - i)))
        if 20 < phrase.length then
          let st1 := { st with calls := st.calls ++ [(pg, phrase)] }
          match sp pg phrase with
          | none => st1
          | some results => foldQuads (checkedQuad Strat.phrase pg phrase) st1 results
        else st)
      st

/-- Per-excerpt processing of the enhanced variant: skip excerpts whose
trimmed length is below 10, then run the three strategies in order. -/
def processExcerpt (sp : SearchFn) (pg : Nat) (st : LocSt) (e : Str) : LocSt :=
  if (jsTrim e).length < 10 then st
  else s3 sp pg e (s2 sp pg e (s1 sp pg e st))

/-- All excerpts on one page. -/
def processPage (sp : SearchFn) (excerpts : List Str) (st : LocSt) (pg : Nat) :
    LocSt :=
  excerpts.foldl (processExcerpt sp pg) st

/-- The enhanced multi-strategy Locator: every page, every excerpt, three
strategies. -/
def locateV1 (sp : SearchFn) (numPages : Nat) (excerpts : List Str) : LocSt :=
  (List.range numPages).foldl (processPage sp excerpts)
    { anns := [], processed := [], calls := [] }

/-! ## Response assembly -/

/-- `[...new Set(xs)]`: deduplicate keeping first occurrences, in order. -/
def setDedup {α : Type} [DecidableEq α] (l : List α) : List α :=
  l.foldl (fun acc x => if x ∈ acc then acc else acc ++ [x]) []

/-- `.sort((a, b) => a - b)` on distinct numbers: ascending numeric sort. -/
def sortNat (l : List Nat) : List Nat :=
  List.insertionSort (· ≤ ·) l

/-- Record a page for an excerpt's entry of the source-to-page map, keeping
insertion order and skipping pages already present. -/
def addPage (ps : List Nat) (p : Nat) : List Nat :=
  if p ∈ ps then ps else ps ++ [p]

/-- One step of building `sourcePageMapping`: group an annotation's page
under its excerpt key. -/
def addToMapping (m : List (Str × List Nat)) (e : Str) (p : Nat) :
    List (Str × List Nat) :=
  if m.any (fun q => q.1 = e) then
    m.map (fun q => if q.1 = e then (q.1, addPage q.2 p) else q)
  else m ++ [(e, [p])]

/-- `pageMappings`: group accepted annotations by excerpt text and sort each
entry's page list ascending. -/
def mkPageMappings (anns : List Ann) : List (Str × List Nat) :=
  (anns.foldl (fun m a => addToMapping m a.excerpt a.pageNumber) []).map
    (fun q => (q.1, sortNat q.2))

/-- The JSON payload of the search route (success case): annotations,
`highlightedPages`, `pageMappings`, plus the call trace of the run. -/
structure ApiOut where
  anns : List Ann
  highlightedPages : List Nat
  pageMappings : List (Str × List Nat)
  calls : List (Nat × Str)
deriving DecidableEq, Repr

/-- The enhanced search route, end to end. -/
def apiV1 (sp : SearchFn) (numPages : Nat) (excerpts : List Str) : ApiOut :=
  let st := locateV1 sp numPages excerpts
  { anns := st.anns
    highlightedPages := sortNat (setDedup (st.anns.map (·.pageNumber)))
    pageMappings := mkPageMappings st.anns
    calls := st.calls }

/-! ## The segment-list variant of the search route -/

/-- State of the segment-list variant; its coordinate keys also include the
rounded width and height
(`${page}-${round(x0)}-${round(y0)}-${round(x1-x0)}-${round(y1-y0)}`). -/
structure LocSt2 where
  anns : List Ann
  processed : List (Nat × Int × Int × Int × Int)
  calls : List (Nat × Str)
deriving DecidableEq, Repr

/-- The searchable segments derived from one excerpt in the segment-list
variant: the trimmed full excerpt if longer than 15, the trimmed sentences
longer than 15, and sliding 6-word windows (over sentences of more than 8
words) longer than 20 characters. -/
def segmentsOfExcerpt (e : Str) : List Str :=
  if jsTrim e = [] then []
  else
    let sentences :=
      ((jsSplitSent e).filter (fun s => 15 < (jsTrim s).length)).map jsTrim
    (if 15 < (jsTrim e).length then [jsTrim e] else []) ++
      sentences ++
      sentences.flatMap (fun s =>
        let ws := jsSplitWs s
        if 8 < ws.length then
          (List.range (ws.length - 5)).filterMap (fun i =>
            let ph := joinSpace ((ws.drop i).take 6)
            if 20 < ph.length then some ph else none)
        else [])

/-- All searchable segments, deduplicated (`[...new Set(...)]`) and sorted
longest first (`.sort((a, b) => b.length - a.length)`, a stable sort). -/
def uniqueSegments (excerpts : List Str) : List Str :=
  List.insertionSort (fun a b => b.length ≤ a.length)
    (setDedup (excerpts.flatMap segmentsOfExcerpt))

/-- Per-quad processing of the segment-list variant: envelope, 5-component
coordinate key dedup, accept. -/
def v2Quad (pg : Nat) (seg : Str) (st : LocSt2) (q : Quad) : LocSt2 :=
  let x0 := min q.ulx q.llx
  let y0 := min q.uly q.ury
  let x1 := max q.urx q.lrx
  let y1 := max q.lly q.lry
  let key : Nat × Int × Int × Int × Int :=
    (pg + 1, jsRound x0, jsRound y0, jsRound (x1 - x0), jsRound (y1 - y0))
  if key ∈ st.processed then st
  else
    { st with
      processed := st.processed ++ [key]
      anns := st.anns ++
        [{ pageNumber := pg + 1
           coordinates := ⟨x0, y0, x1 - x0, y1 - y0⟩
           excerpt := seg, strategy := none }] }

/-- One segment on one page in the segment-list variant: skip blank segments,
search (a thrown search is caught and skipped), process quads. -/
def v2Segment (sp : SearchFn) (pg : Nat) (st : LocSt2) (seg : Str) : LocSt2 :=
  if jsTrim seg = [] then st
  else
    let st1 := { st with calls := st.calls ++ [(pg, seg)] }
    match sp pg seg with
    | none => st1
    | some results =>
      results.foldl (fun st qps => qps.foldl (v2Quad pg seg) st) st1

/-- The segment-list Locator: all pages, all unique segments. -/
def locateV2 (sp : SearchFn) (numPages : Nat) (excerpts : List Str) : LocSt2 :=
  (List.range numPages).foldl
    (fun st pg => (uniqueSegments excerpts).foldl (v2Segment sp pg) st)
    { anns := [], processed := [], calls := [] }

/-! ## The chat orchestration route -/

/-- The fields of the parsed RAG JSON payload that the route reads:
`answer`, and `sources` as `some s` when the field holds the string `s`, or
`none` when it is absent or not a string. -/
structure RagParsed where
  answer : Str
  sources : Option Str
deriving DecidableEq, Repr

/-- The `{answer, sources}` part of the chat route's response (the passthrough
`sourceDocuments` field is not modelled). -/
structure ChatResp where
  answer : Str
  sources : List Str
deriving DecidableEq, Repr

/-- The chat route's post-processing of the raw RAG output.  `parse` models
`JSON.parse` plus field extraction; `parse raw = none` models a thrown
`JSON.parse` error, in which case the raw text becomes the answer and
`sources` is set to the empty string.  Then
`typeof sources === 'string' ? sources.split(". ") : []`. -/
def chatPost (parse : Str → Option RagParsed) (raw : Str) : ChatResp :=
  let p : Str × Option Str :=
    match parse raw with
    | some pr => (pr.answer, pr.sources)
    | none => (raw, some [])
  { answer := p.1
    sources :=
      match p.2 with
      | some s => splitPeriodSpace s
      | none => [] }

/-! ## The citation injector -/

/-- One `pageMappings` entry: `{excerpt, pages}`. -/
structure PageMap where
  excerpt : Str
  pages : List Nat
deriving DecidableEq, Repr

/-- Fuzzy-match tokenization: lowercase, split on whitespace, keep words of
length greater than 3. -/
def fuzzyWords (s : Str) : List Str :=
  (jsSplitWs (toLowerL s)).filter (fun w => 3 < w.length)

/-- The per-word-pair relation of the fuzzy matcher:
`ew.includes(word) || word.includes(ew) || ew.startsWith(word.substring(0, 4))
|| word.startsWith(ew.substring(0, 4))`. -/
def wordRelated (word ew : Str) : Bool :=
  isSubL word ew || isSubL ew word ||
    (word.take 4).isPrefixOf ew || (ew.take 4).isPrefixOf word

/-- The fuzzy match-count of a source against a mapping's excerpt. -/
def fuzzyCount (source mex : Str) : Nat :=
  ((fuzzyWords source).filter
    (fun w => (fuzzyWords mex).any (wordRelated w))).length

/-- The fuzzy acceptance test:
`matches >= Math.max(2, 0.2 * Math.min(|sourceWords|, |excerptWords|))`.
With integral `matches` this is `2 ≤ matches ∧ min ≤ 5 * matches` (the
double-precision evaluation of `0.2 * min` never crosses an integer for the
list lengths involved, so the exact rational comparison coincides). -/
def fuzzyIsMatch (source : Str) (m : PageMap) : Bool :=
  let nMatches := fuzzyCount source m.excerpt
  decide (2 ≤ nMatches) &&
    decide (min (fuzzyWords source).length (fuzzyWords m.excerpt).length ≤
      5 * nMatches)

/-- The three source-to-pages strategies, in order: exact excerpt equality
(`find`), fuzzy match (`find`, hence the first satisfying mapping), and the
index-based fallback. -/
def matchSource (pms : List PageMap) (source : Str) (idx : Nat) :
    Option (List Nat) :=
  match pms.find? (fun m => decide (m.excerpt = source)) with
  | some m => some m.pages
  | none =>
    match pms.find? (fuzzyIsMatch source) with
    | some m => some m.pages
    | none => (pms.get? idx).map (·.pages)

/-- `Map.set`: replace the value of an existing key in place, else append. -/
def upsert (m : List (Str × List Nat)) (k : Str) (v : List Nat) :
    List (Str × List Nat) :=
  if m.any (fun q => decide (q.1 = k)) then
    m.map (fun q => if q.1 = k then (k, v) else q)
  else m ++ [(k, v)]

/-- The `sourceToPages` map: every source, with its index, through the three
matching strategies (unmatched sources are left out). -/
def buildSourceToPages (sources : List Str) (pms : List PageMap) :
    List (Str × List Nat) :=
  sources.enum.foldl
    (fun m p =>
      match matchSource pms p.2 p.1 with
      | some pages => upsert m p.2 pages
      | none => m)
    []

lemma digitChar_ne_rparen (k : Nat) : digitChar k ≠ ')' := by
  rcases k with _|_|_|_|_|_|_|_|_|k <;> simp [digitChar]

lemma find?_first {α : Type} (p : α → Bool) (l : List α) (i : Nat)
    (hi : i < l.length) (hp : p (l.get ⟨i, hi⟩) = true)
    (hfirst : ∀ j (hj : j < l.length), j < i → p (l.get ⟨j, hj⟩) = false) :
    l.find? p = some (l.get ⟨i, hi⟩) := by
  induction l generalizing i with
  | nil => simp at hi
  | cons a t ih =>
    cases i with
    | zero =>
      have ha : p a = true := hp
      rw [List.find?_cons_of_pos _ ha]
      rfl
    | succ i2 =>
      have ha : p a = false :=
        hfirst 0 (by simp) (Nat.succ_pos _)
      rw [List.find?_cons_of_neg _ (by simp [ha])]
      have hi2 : i2 < t.length := Nat.lt_of_succ_lt_succ hi
      have hp2 : p (t.get ⟨i2, hi2⟩) = true := hp
      have hfirst2 : ∀ j (hj : j < t.length), j < i2 →
          p (t.get ⟨j, hj⟩) = false := by
        intro j hj hji
        exact hfirst (j + 1) (Nat.succ_lt_succ hj) (Nat.succ_lt_succ hji)
      exact ih i2 hi2 hp2 hfirst2

/-- **C4 (amended).**  When no mapping's excerpt equals the source exactly,
the fuzzy step accepts the *first* (lowest-index) mapping whose match count
reaches the threshold `max(2, 0.2 · min(wordCounts))` — not the one with the
highest count. -/
theorem claim4_thm (pms : List PageMap) (source : Str) (idx : Nat)
    (hex : ∀ m ∈ pms, m.excerpt ≠ source)
    (i : Nat) (hi : i < pms.length)
    (hfz : fuzzyIsMatch source (pms.get ⟨i, hi⟩) = true)
    (hfirst : ∀ j (hj : j < pms.length), j < i →
      fuzzyIsMatch source (pms.get ⟨j, hj⟩) = false) :
    matchSource pms source idx = some (pms.get ⟨i, hi⟩).pages := by
  unfold matchSource
  have h1 : pms.find? (fun m => decide (m.excerpt = source)) = none := by
    rw [List.find?_eq_none]
    intro m hm
    simp [hex m hm]
  rw [h1, find?_first _ pms i hi hfz hfirst]

def srcW4 : Str := "alpha bravo charlie delta echo".toList

def m4bad : PageMap := { excerpt := "nope".toList, pages := [7] }

def m4a : PageMap :=
  { excerpt := "alpha bravo xxxx1 yyyy1 zzzz1".toList, pages := [1] }

def m4b : PageMap :=
  { excerpt := "alpha bravo charlie delta qqqq".toList, pages := [2] }

/-- Witness for `claim4_thm` at a concrete input: the below-threshold first
mapping is skipped, the second is accepted. -/
theorem claim4_witness : matchSource [m4bad, m4a, m4b] srcW4 0 = some [1] :=
  claim4_thm [m4bad, m4a, m4b] srcW4 0 (by decide) 1 (by decide) (by decide)
    (by decide)

/-- **C4, counterexample to the claim as stated.**  Both mappings satisfy the
threshold and the second has the strictly higher match count, yet the first
one's pages are assigned: the accepted mapping is not the one with the
highest count. -/
theorem claim4_counterexample :
    matchSource [m4a, m4b] srcW4 0 = some [1] ∧
    buildSourceToPages [srcW4] [m4a, m4b] = [(srcW4, [1])] ∧
    fuzzyIsMatch srcW4 m4a = true ∧
    fuzzyIsMatch srcW4 m4b = true ∧
    fuzzyCount srcW4 m4a.excerpt = 2 ∧
    fuzzyCount srcW4 m4b.excerpt = 4 ∧
    (∀ m ∈ [m4a, m4b], m.excerpt ≠ srcW4) ∧
    m4a.pages ≠ m4b.pages := by
  decide

/-! ## The chat route on malformed and string-sources payloads (C3, C6) -/

/-- **C3 (amended).**  When the RAG output fails to parse as JSON the route
does not throw and returns the whole raw text as the answer — but with
`sources = [""]`, the single-element list holding the empty string, because
`"".split(". ")` is `[""]` in JavaScript (not the empty list). -/
theorem claim3_thm (parse : Str → Option RagParsed) (raw : Str)
    (h : parse raw = none) :
    chatPost parse raw = { answer := raw, sources := [[]] } := by
  unfold chatPost
  rw [h]
  rfl

/-- Witness for `claim3_thm` on the spec's Scenario E text. -/
theorem claim3_witness :
    chatPost (fun _ => none) "Just some freeform text".toList =
      { answer := "Just some freeform text".toList, sources := [[]] } :=
  claim3_thm (fun _ => none) "Just some freeform text".toList rfl

/-- **C3, counterexample to the claim as stated.**  On Scenario E's
malformed output the route returns `sources = [""]`, not the claimed
`sources = []`. -/
theorem claim3_counterexample :
    chatPost (fun _ => none) "Just some freeform text".toList =
      { answer := "Just some freeform text".toList, sources := [[]] } ∧
    chatPost (fun _ => none) "Just some freeform text".toList ≠
      { answer := "Just some freeform text".toList, sources := [] } := by
  decide

lemma splitPeriodSpace_ne_nil (s : Str) : splitPeriodSpace s ≠ [] := by
  match s with
  | [] => simp [splitPeriodSpace]
  | [c] => simp [splitPeriodSpace]
  | c :: d :: rest =>
    unfold splitPeriodSpace
    split
    · simp
    · match h : splitPeriodSpace (d :: rest) with
      | [] => simp [consHead]
      | x :: xs => simp [consHead]

lemma joinPeriodSpace_consHead (c : Char) (L : List Str) (h : L ≠ []) :
    joinPeriodSpace (consHead c L) = c :: joinPeriodSpace L := by
  match L with
  | [] => exact absurd rfl h
  | [x] => rfl
  | x :: y :: t => rfl

lemma joinPeriodSpace_splitPeriodSpace (s : Str) :
    joinPeriodSpace (splitPeriodSpace s) = s := by
  match s with
  | [] => rfl
  | [c] => rfl
  | c :: d :: rest =>
    unfold splitPeriodSpace
    split
    · next hcd =>
      obtain ⟨hc, hd⟩ := hcd
      subst hc
      subst hd
      match h : splitPeriodSpace rest with
      | [] => exact absurd h (splitPeriodSpace_ne_nil rest)
      | x :: xs =>
        show joinPeriodSpace ([] :: x :: xs) = _
        have : joinPeriodSpace ([] :: x :: xs) =
            '.' :: ' ' :: joinPeriodSpace (x :: xs) := rfl
        rw [this, ← h, joinPeriodSpace_splitPeriodSpace rest]
    · rw [joinPeriodSpace_consHead c _ (splitPeriodSpace_ne_nil (d :: rest)),
        joinPeriodSpace_splitPeriodSpace (d :: rest)]

def parse6 : Str → Option RagParsed :=
  fun _ => some ⟨"x".toList, some "A. B. C".toList⟩

def parse6b : Str → Option RagParsed :=
  fun _ => some ⟨"x".toList, some "A. B".toList⟩

/-- **C6.**  String-typed `sources` are normalized by splitting on the
two-character separator `". "` (`joinPeriodSpace` re-inserts exactly that
separator, so the pieces are the split on `". "`); in particular `"A. B. C"`
becomes `["A", "B", "C"]`. -/
theorem claim6_thm :
    (∀ (parse : Str → Option RagParsed) (raw : Str) (pr : RagParsed) (s : Str),
      parse raw = some pr → pr.sources = some s →
      (chatPost parse raw).sources = splitPeriodSpace s) ∧
    (∀ s : Str, joinPeriodSpace (splitPeriodSpace s) = s) ∧
    (chatPost parse6 "raw".toList).sources =
      ["A".toList, "B".toList, "C".toList] := by
  refine ⟨?_, joinPeriodSpace_splitPeriodSpace, by decide⟩
  intro parse raw pr s hp hs
  unfold chatPost
  rw [hp]
  simp [hs]

/-- Witness for `claim6_thm` at a concrete parse result. -/
theorem claim6_witness :
    (chatPost parse6b "raw".toList).sources = splitPeriodSpace "A. B".toList :=
  claim6_thm.1 parse6b "raw".toList _ "A. B".toList rfl rfl

/-! ## Locator invariants: non-overlap (C1) -/

/-- The claim's separation condition for two boxes after 10-unit tolerance
expansion (`A` being the later-accepted box in the code's check). -/
def sepBoxes (A B : Box) : Prop :=
  A.x > B.x + B.width + 10 ∨ B.x > A.x + A.width + 10 ∨
    A.y > B.y + B.height + 10 ∨ B.y > A.y + A.height + 10

/-- The invariant relation between an earlier accepted annotation `a` and a
later one `b`: when `b` came from the sentence or phrase strategy and sits
on the same page, the two boxes are separated. -/
def SepLater (a b : Ann) : Prop :=
  (b.strategy = some Strat.sentence ∨ b.strategy = some Strat.phrase) →
    b.pageNumber = a.pageNumber → sepBoxes b.coordinates a.coordinates

lemma foldl_preserve {α σ : Type} (P : σ → Prop) (f : σ → α → σ)
    (hf : ∀ st a, P st → P (f st a)) :
    ∀ (l : List α) (st : σ), P st → P (l.foldl f st) := by
  intro l
  induction l with
  | nil => intro st h; exact h
  | cons a t ih => intro st h; exact ih _ (hf st a h)

lemma foldl_preserve_mem {α σ : Type} (P : σ → Prop) (f : σ → α → σ)
    (l : List α) (hf : ∀ st a, a ∈ l → P st → P (f st a)) :
    ∀ st, P st → P (l.foldl f st) := by
  induction l with
  | nil => intro st h; exact h
  | cons a t ih =>
    intro st h
    exact ih (fun st' a' ha' => hf st' a' (List.mem_cons_of_mem _ ha'))
      _ (hf st a (List.mem_cons_self _ _) h)

lemma pairwise_append_one {α : Type} {R : α → α → Prop} {l : List α} {b : α}
    (h : l.Pairwise R) (hb : ∀ a ∈ l, R a b) : (l ++ [b]).Pairwise R := by
  rw [List.pairwise_append]
  refine ⟨h, List.pairwise_singleton R b, ?_⟩
  intro a ha b' hb'
  rcases List.mem_singleton.mp hb' with rfl
  exact hb a ha

instance (A B : Box) : Decidable (sepBoxes A B) := by
  unfold sepBoxes
  exact inferInstance

lemma overlaps_false_sep {pg1 : Nat} {x y w h : ℤ} {a : Ann}
    (hov : overlapsExisting pg1 x y w h a = false) (hpg : a.pageNumber = pg1) :
    sepBoxes ⟨x, y, w, h⟩ a.coordinates := by
  unfold overlapsExisting at hov
  rw [if_neg (by simp [hpg])] at hov
  cases hcond : (decide (x > a.coordinates.x + a.coordinates.width + 10)
      || decide (a.coordinates.x > x + w + 10)
      || decide (y > a.coordinates.y + a.coordinates.height + 10)
      || decide (a.coordinates.y > y + h + 10)) with
  | false => rw [hcond] at hov; simp at hov
  | true =>
    unfold sepBoxes
    simpa [Bool.or_eq_true, decide_eq_true_eq, or_assoc] using hcond

/-- The pairwise-separation invariant on the accepted annotation list. -/
def SepInv (st : LocSt) : Prop :=
  st.anns.Pairwise SepLater

lemma sepInv_s1Quad (pg : Nat) (e : Str) (st : LocSt) (q : Quad)
    (h : SepInv st) : SepInv (s1Quad pg e st q) := by
  unfold s1Quad
  dsimp only
  split
  · exact h
  · refine pairwise_append_one h ?_
    intro a ha hstrat
    exfalso
    rcases hstrat with h' | h' <;> simp at h'

lemma sepInv_checkedQuad (strat : Strat) (pg : Nat) (seg : Str) (st : LocSt)
    (q : Quad) (h : SepInv st) : SepInv (checkedQuad strat pg seg st q) := by
  unfold checkedQuad
  dsimp only
  split
  · exact h
  · next hov =>
    refine pairwise_append_one h ?_
    intro a ha _ hpg
    have hov2 : st.anns.any (overlapsExisting (pg + 1)
        (min q.ulx q.llx) (min q.uly q.ury)
        (max q.urx q.lrx - min q.ulx q.llx)
        (max q.lly q.lry - min q.uly q.ury)) = false := by
      simpa using hov
    have := List.any_eq_false.mp hov2 a ha
    exact overlaps_false_sep (by simpa using this) (by simpa using hpg.symm)

lemma sepInv_foldQuads (f : LocSt → Quad → LocSt)
    (hf : ∀ st q, SepInv st → SepInv (f st q)) (st : LocSt)
    (results : List (List Quad)) (h : SepInv st) :
    SepInv (foldQuads f st results) :=
  foldl_preserve SepInv _
    (fun st' qps h' => foldl_preserve SepInv f hf qps st' h') results st h

lemma sepInv_s1 (sp : SearchFn) (pg : Nat) (e : Str) (st : LocSt)
    (h : SepInv st) : SepInv (s1 sp pg e st) := by
  unfold s1
  dsimp only
  split
  · exact h
  · exact sepInv_foldQuads _ (sepInv_s1Quad pg e) _ _ h

lemma sepInv_s2sentence (sp : SearchFn) (pg : Nat) (st : LocSt) (s : Str)
    (h : SepInv st) : SepInv (s2sentence sp pg st s) := by
  unfold s2sentence
  dsimp only
  split
  · exact h
  · exact sepInv_foldQuads _ (sepInv_checkedQuad Strat.sentence pg s) _ _ h

lemma sepInv_s2 (sp : SearchFn) (pg : Nat) (e : Str) (st : LocSt)
    (h : SepInv st) : SepInv (s2 sp pg e st) :=
  foldl_preserve SepInv _ (fun st' s h' => sepInv_s2sentence sp pg st' s h')
    _ st h

lemma sepInv_s3 (sp : SearchFn) (pg : Nat) (e : Str) (st : LocSt)
    (h : SepInv st) : SepInv (s3 sp pg e st) := by
  unfold s3
  dsimp only
  split
  · exact h
  · refine foldl_preserve SepInv _ ?_ _ st h
    intro st' i h'
    dsimp only
    split
    · split
      · exact h'
      · exact sepInv_foldQuads _ (sepInv_checkedQuad Strat.phrase pg _) _ _ h'
    · exact h'

lemma sepInv_processExcerpt (sp : SearchFn) (pg : Nat) (st : LocSt) (e : Str)
    (h : SepInv st) : SepInv (processExcerpt sp pg st e) := by
  unfold processExcerpt
  split
  · exact h
  · exact sepInv_s3 sp pg e _ (sepInv_s2 sp pg e _ (sepInv_s1 sp pg e st h))

def eW1 : Str := "Aaaa aaaa aaaa aaaa. Bbbb bbbb bbbb bbbb.".toList

def qA : Quad := ⟨0, 0, 100, 0, 0, 10, 100, 10⟩

def qFar : Quad := ⟨0, 500, 100, 500, 0, 510, 100, 510⟩

def spW1 : SearchFn := fun p q =>
  if p = 0 ∧ q = eW1 then some [[qA]]
  else if p = 0 ∧ q = "Aaaa aaaa aaaa aaaa".toList then some [[qFar]]
  else some []

/-- **C1 (amended).**  In the enhanced Locator, every annotation accepted by
the sentence or phrase strategy is separated (after 10-unit tolerance
expansion) from every previously accepted annotation on the same page; the
second conjunct shows a run in which a sentence-strategy annotation is
accepted after a full-excerpt one, so the invariant applies non-vacuously. -/
theorem claim1_thm :
    (∀ (sp : SearchFn) (numPages : Nat) (excerpts : List Str),
      ((locateV1 sp numPages excerpts).anns).Pairwise SepLater) ∧
    (locateV1 spW1 1 [eW1]).anns.map (fun a => a.strategy) =
      [some Strat.fullExcerpt, some Strat.sentence] := by
  constructor
  · intro sp numPages excerpts
    unfold locateV1
    refine foldl_preserve SepInv _ ?_ _ _ ?_
    · intro st pg h
      exact foldl_preserve SepInv _
        (fun st' e h' => sepInv_processExcerpt sp pg st' e h') _ st h
    · exact List.Pairwise.nil
  · decide

def eC1 : Str := "0123456789".toList

def qB : Quad := ⟨1, 0, 101, 0, 1, 10, 101, 10⟩

def spC1 : SearchFn := fun p q =>
  if p = 0 ∧ q = eC1 then some [[qA, qB]] else some []

/-- **C1, counterexample to the claim as stated.**  Two accepted
full-excerpt annotations on the same page overlap after tolerance
expansion: the full-excerpt strategy deduplicates only on the rounded
upper-left corner, not on box overlap. -/
theorem claim1_counterexample :
    (locateV1 spC1 1 [eC1]).anns =
      [{ pageNumber := 1, coordinates := ⟨0, 0, 100, 10⟩, excerpt := eC1
         strategy := some Strat.fullExcerpt },
       { pageNumber := 1, coordinates := ⟨1, 0, 100, 10⟩, excerpt := eC1
         strategy := some Strat.fullExcerpt }] ∧
    ¬ sepBoxes ⟨1, 0, 100, 10⟩ ⟨0, 0, 100, 10⟩ ∧
    ¬ sepBoxes ⟨0, 0, 100, 10⟩ ⟨1, 0, 100, 10⟩ := by
  decide

/-! ## Which queries the Locator searches (C7) -/

/-- The shape of every search call of the enhanced variant: the trimmed full
excerpt of an excerpt passing the length-10 gate, a trimmed sentence longer
than 15, or a word-window phrase longer than 20. -/
def CallShapeV1 (excerpts : List Str) (c : Nat × Str) : Prop :=
  ∃ e ∈ excerpts, 10 ≤ (jsTrim e).length ∧
    (c.2 = jsTrim e ∨
      (∃ s ∈ jsSplitSent e, 15 < (jsTrim s).length ∧ c.2 = jsTrim s) ∨
      20 < c.2.length)

lemma calls_s1Quad (pg : Nat) (e : Str) (st : LocSt) (q : Quad) :
    (s1Quad pg e st q).calls = st.calls := by
  unfold s1Quad
  dsimp only
  split <;> rfl

lemma calls_checkedQuad (strat : Strat) (pg : Nat) (seg : Str) (st : LocSt)
    (q : Quad) : (checkedQuad strat pg seg st q).calls = st.calls := by
  unfold checkedQuad
  dsimp only
  split <;> rfl

lemma calls_foldQuads (f : LocSt → Quad → LocSt)
    (hf : ∀ st q, (f st q).calls = st.calls) (st : LocSt)
    (results : List (List Quad)) :
    (foldQuads f st results).calls = st.calls := by
  refine foldl_preserve (fun s2 => s2.calls = st.calls) _ ?_ results st rfl
  intro st' qps h'
  refine foldl_preserve (fun s2 => s2.calls = st.calls) f ?_ qps st' h'
  intro st2 q h2
  rw [hf st2 q]
  exact h2

lemma calls_s1 (sp : SearchFn) (pg : Nat) (e : Str) (st : LocSt) :
    (s1 sp pg e st).calls = st.calls ++ [(pg, jsTrim e)] := by
  unfold s1
  dsimp only
  split
  · rfl
  · rw [calls_foldQuads _ (calls_s1Quad pg e)]

lemma calls_s2sentence (sp : SearchFn) (pg : Nat) (st : LocSt) (s : Str) :
    (s2sentence sp pg st s).calls = st.calls ++ [(pg, jsTrim s)] := by
  unfold s2sentence
  dsimp only
  split
  · rfl
  · rw [calls_foldQuads _ (calls_checkedQuad Strat.sentence pg s)]

lemma callInv_s2 (excerpts : List Str) (sp : SearchFn) (pg : Nat) (e : Str)
    (st : LocSt) (he : e ∈ excerpts) (hlen : 10 ≤ (jsTrim e).length)
    (h : ∀ c ∈ st.calls, CallShapeV1 excerpts c) :
    ∀ c ∈ (s2 sp pg e st).calls, CallShapeV1 excerpts c := by
  unfold s2
  refine foldl_preserve_mem
    (fun s2 : LocSt => ∀ c ∈ s2.calls, CallShapeV1 excerpts c) _ _ ?_ st h
  intro st' s hs h' c hc
  rw [calls_s2sentence] at hc
  rcases List.mem_append.mp hc with hc | hc
  · exact h' c hc
  · rcases List.mem_singleton.mp hc with rfl
    obtain ⟨hmem, hslen⟩ := List.mem_filter.mp hs
    exact ⟨e, he, hlen, Or.inr (Or.inl ⟨s, hmem, by simpa using hslen, rfl⟩)⟩

lemma callInv_s3 (excerpts : List Str) (sp : SearchFn) (pg : Nat) (e : Str)
    (st : LocSt) (he : e ∈ excerpts) (hlen : 10 ≤ (jsTrim e).length)
    (h : ∀ c ∈ st.calls, CallShapeV1 excerpts c) :
    ∀ c ∈ (s3 sp pg e st).calls, CallShapeV1 excerpts c := by
  unfold s3
  dsimp only
  split
  · exact h
  · refine foldl_preserve
      (fun s2 : LocSt => ∀ c ∈ s2.calls, CallShapeV1 excerpts c) _ ?_ _ st h
    intro st' i h' c hc
    split at hc
    · next hphlen =>
      split at hc
      · rcases List.mem_append.mp hc with hc | hc
        · exact h' c hc
        · rcases List.mem_singleton.mp hc with rfl
          exact ⟨e, he, hlen, Or.inr (Or.inr hphlen)⟩
      · rw [calls_foldQuads _ (calls_checkedQuad Strat.phrase pg _)] at hc
        rcases List.mem_append.mp hc with hc | hc
        · exact h' c hc
        · rcases List.mem_singleton.mp hc with rfl
          exact ⟨e, he, hlen, Or.inr (Or.inr hphlen)⟩
    · exact h' c hc

lemma callInv_processExcerpt (excerpts : List Str) (sp : SearchFn) (pg : Nat)
    (st : LocSt) (e : Str) (he : e ∈ excerpts)
    (h : ∀ c ∈ st.calls, CallShapeV1 excerpts c) :
    ∀ c ∈ (processExcerpt sp pg st e).calls, CallShapeV1 excerpts c := by
  unfold processExcerpt
  split
  · exact h
  · next hge =>
    have hlen : 10 ≤ (jsTrim e).length := by omega
    refine callInv_s3 excerpts sp pg e _ he hlen ?_
    refine callInv_s2 excerpts sp pg e _ he hlen ?_
    intro c hc
    rw [calls_s1] at hc
    rcases List.mem_append.mp hc with hc | hc
    · exact h c hc
    · rcases List.mem_singleton.mp hc with rfl
      exact ⟨e, he, hlen, Or.inl rfl⟩

lemma mem_setDedup_aux {α : Type} [DecidableEq α] (l : List α) :
    ∀ (acc : List α) (x : α),
      (x ∈ l.foldl (fun acc x => if x ∈ acc then acc else acc ++ [x]) acc) ↔
        x ∈ acc ∨ x ∈ l := by
  induction l with
  | nil => intro acc x; simp
  | cons a t ih =>
    intro acc x
    show (x ∈ t.foldl _ (if a ∈ acc then acc else acc ++ [a])) ↔ _
    by_cases ha : a ∈ acc
    · rw [if_pos ha, ih]
      constructor
      · rintro (h | h)
        · exact Or.inl h
        · exact Or.inr (List.mem_cons_of_mem _ h)
      · rintro (h | h)
        · exact Or.inl h
        · rcases List.mem_cons.mp h with rfl | h
          · exact Or.inl ha
          · exact Or.inr h
    · rw [if_neg ha, ih]
      constructor
      · rintro (h | h)
        · rcases List.mem_append.mp h with h | h
          · exact Or.inl h
          · rcases List.mem_singleton.mp h with rfl
            exact Or.inr (List.mem_cons_self _ _)
        · exact Or.inr (List.mem_cons_of_mem _ h)
      · rintro (h | h)
        · exact Or.inl (List.mem_append_left _ h)
        · rcases List.mem_cons.mp h with rfl | h
          · exact Or.inl (List.mem_append_right _ (List.mem_singleton_self _))
          · exact Or.inr h

lemma mem_setDedup {α : Type} [DecidableEq α] (l : List α) (x : α) :
    x ∈ setDedup l ↔ x ∈ l := by
  unfold setDedup
  rw [mem_setDedup_aux]
  simp

lemma segment_length (excerpts : List Str) :
    ∀ seg ∈ uniqueSegments excerpts, 15 < seg.length := by
  intro seg hseg
  unfold uniqueSegments at hseg
  rw [(List.perm_insertionSort _ _).mem_iff, mem_setDedup] at hseg
  rcases List.mem_flatMap.mp hseg with ⟨e, -, hmem⟩
  unfold segmentsOfExcerpt at hmem
  split at hmem
  · simp at hmem
  · rcases List.mem_append.mp hmem with hmem | hmem
    · rcases List.mem_append.mp hmem with hmem | hmem
      · split at hmem
        · next hgt =>
          rcases List.mem_singleton.mp hmem with rfl
          exact hgt
        · simp at hmem
      · rcases List.mem_map.mp hmem with ⟨s, hs, rfl⟩
        have := (List.mem_filter.mp hs).2
        simpa using this
    · rcases List.mem_flatMap.mp hmem with ⟨s, -, hph⟩
      have hph2 : seg ∈ (if 8 < (jsSplitWs s).length then
          List.filterMap (fun i =>
            if 20 < (joinSpace (List.take 6 (List.drop i (jsSplitWs s)))).length
            then some (joinSpace (List.take 6 (List.drop i (jsSplitWs s))))
            else none)
            (List.range ((jsSplitWs s).length - 5))
        else []) := hph
      split at hph2
      · rcases List.mem_filterMap.mp hph2 with ⟨i, -, hcond⟩
        split at hcond
        · next h20 =>
          rcases Option.some.inj hcond with rfl
          omega
        · exact absurd hcond (by simp)
      · simp at hph2

lemma calls_v2Quad (pg : Nat) (seg : Str) (st : LocSt2) (q : Quad) :
    (v2Quad pg seg st q).calls = st.calls := by
  unfold v2Quad
  dsimp only
  split <;> rfl

lemma callInv_v2Segment (excerpts : List Str) (sp : SearchFn) (pg : Nat)
    (st : LocSt2) (seg : Str) (hseg : seg ∈ uniqueSegments excerpts)
    (h : ∀ c ∈ st.calls, 15 < c.2.length) :
    ∀ c ∈ (v2Segment sp pg st seg).calls, 15 < c.2.length := by
  unfold v2Segment
  dsimp only
  have hnew : ∀ c ∈ st.calls ++ [(pg, seg)], 15 < c.2.length := by
    intro c hc
    rcases List.mem_append.mp hc with hc | hc
    · exact h c hc
    · rcases List.mem_singleton.mp hc with rfl
      exact segment_length excerpts seg hseg
  split
  · exact h
  · split
    · exact hnew
    · refine foldl_preserve
        (fun s2 : LocSt2 => ∀ c ∈ s2.calls, 15 < c.2.length) _ ?_ _ _ hnew
      intro st' qps h'
      refine foldl_preserve
        (fun s2 : LocSt2 => ∀ c ∈ s2.calls, 15 < c.2.length) _ ?_ qps st' h'
      intro st2 q h2
      rw [calls_v2Quad]
      exact h2

/-- **C7 (amended).**  Every search call of the enhanced variant queries the
trimmed full excerpt of an excerpt whose trimmed length is at least 10 (the
only gate for the full-excerpt strategy — not 15), a trimmed sentence longer
than 15, or a word-window phrase longer than 20; every search call of the
segment-list variant queries a segment longer than 15 characters. -/
theorem claim7_thm :
    (∀ (sp : SearchFn) (numPages : Nat) (excerpts : List Str),
      ∀ c ∈ (locateV1 sp numPages excerpts).calls, CallShapeV1 excerpts c) ∧
    (∀ (sp : SearchFn) (numPages : Nat) (excerpts : List Str),
      ∀ c ∈ (locateV2 sp numPages excerpts).calls, 15 < c.2.length) := by
  constructor
  · intro sp numPages excerpts
    unfold locateV1
    refine foldl_preserve
      (fun s2 : LocSt => ∀ c ∈ s2.calls, CallShapeV1 excerpts c) _ ?_ _ _
      (by intro c hc; exact absurd hc (List.not_mem_nil c))
    intro st pg h
    unfold processPage
    refine foldl_preserve_mem
      (fun s2 : LocSt => ∀ c ∈ s2.calls, CallShapeV1 excerpts c) _ _ ?_ st h
    intro st' e he h'
    exact callInv_processExcerpt excerpts sp pg st' e he h'
  · intro sp numPages excerpts
    unfold locateV2
    refine foldl_preserve
      (fun s2 : LocSt2 => ∀ c ∈ s2.calls, 15 < c.2.length) _ ?_ _ _
      (by intro c hc; exact absurd hc (List.not_mem_nil c))
    intro st pg h
    refine foldl_preserve_mem
      (fun s2 : LocSt2 => ∀ c ∈ s2.calls, 15 < c.2.length) _ _ ?_ st h
    intro st' seg hseg h'
    exact callInv_v2Segment excerpts sp pg st' seg hseg h'

def e17 : Str := "0123456789ABCDEFG".toList

/-- Witness for `claim7_thm`: a concrete issued call of each variant
satisfies the respective shape. -/
theorem claim7_witness :
    CallShapeV1 [e17] (0, e17) ∧ 15 < ((0, e17) : Nat × Str).2.length :=
  ⟨claim7_thm.1 (fun _ _ => some []) 1 [e17] (0, e17) (by decide),
   claim7_thm.2 (fun _ _ => some []) 1 [e17] (0, e17) (by decide)⟩

def e12 : Str := "0123456789AB".toList

/-- **C7, counterexample to the claim as stated.**  The enhanced variant
searches the full excerpt already at trimmed length 12, i.e. not "only if
its trimmed length exceeds 15". -/
theorem claim7_counterexample :
    (locateV1 (fun _ _ => some []) 1 [e12]).calls = [(0, e12)] ∧
    (jsTrim e12).length = 12 ∧ ¬ 15 < (jsTrim e12).length := by
  decide

/-! ## A thrown search is skipped, never fatal (C9) -/

lemma s1_congr (sp sp2 : SearchFn)
    (h : ∀ p q, sp p q = sp2 p q ∨ (sp p q = none ∧ sp2 p q = some []))
    (pg : Nat) (e : Str) (st : LocSt) : s1 sp pg e st = s1 sp2 pg e st := by
  unfold s1
  dsimp only
  rcases h pg (jsTrim e) with heq | ⟨h1, h2⟩
  · rw [heq]
  · rw [h1, h2]
    rfl

lemma s2sentence_congr (sp sp2 : SearchFn)
    (h : ∀ p q, sp p q = sp2 p q ∨ (sp p q = none ∧ sp2 p q = some []))
    (pg : Nat) (st : LocSt) (s : Str) :
    s2sentence sp pg st s = s2sentence sp2 pg st s := by
  unfold s2sentence
  dsimp only
  rcases h pg (jsTrim s) with heq | ⟨h1, h2⟩
  · rw [heq]
  · rw [h1, h2]
    rfl

lemma s2_congr (sp sp2 : SearchFn)
    (h : ∀ p q, sp p q = sp2 p q ∨ (sp p q = none ∧ sp2 p q = some []))
    (pg : Nat) (e : Str) (st : LocSt) : s2 sp pg e st = s2 sp2 pg e st := by
  unfold s2
  have hfun : s2sentence sp pg = s2sentence sp2 pg := by
    funext st' s
    exact s2sentence_congr sp sp2 h pg st' s
  rw [hfun]

lemma s3_congr (sp sp2 : SearchFn)
    (h : ∀ p q, sp p q = sp2 p q ∨ (sp p q = none ∧ sp2 p q = some []))
    (pg : Nat) (e : Str) (st : LocSt) : s3 sp pg e st = s3 sp2 pg e st := by
  unfold s3
  dsimp only
  split
  · rfl
  · have hfun : (fun (st' : LocSt) (i : Nat) =>
        let phrase := joinSpace
          (List.take (min 12 ((jsSplitWs e).length - i))
            (List.drop i (jsSplitWs e)))
        if 20 < phrase.length then
          let st1 := { st' with calls := st'.calls ++ [(pg, phrase)] }
          match sp pg phrase with
          | none => st1
          | some results =>
            foldQuads (checkedQuad Strat.phrase pg phrase) st1 results
        else st') =
        (fun (st' : LocSt) (i : Nat) =>
          let phrase := joinSpace
            (List.take (min 12 ((jsSplitWs e).length - i))
              (List.drop i (jsSplitWs e)))
          if 20 < phrase.length then
            let st1 := { st' with calls := st'.calls ++ [(pg, phrase)] }
            match sp2 pg phrase with
            | none => st1
            | some results =>
              foldQuads (checkedQuad Strat.phrase pg phrase) st1 results
          else st') := by
      funext st' i
      dsimp only
      split
      · rcases h pg (joinSpace
            (List.take (min 12 ((jsSplitWs e).length - i))
              (List.drop i (jsSplitWs e)))) with heq | ⟨h1, h2⟩
        · rw [heq]
        · rw [h1, h2]
          rfl
      · rfl
    rw [hfun]

lemma processExcerpt_congr (sp sp2 : SearchFn)
    (h : ∀ p q, sp p q = sp2 p q ∨ (sp p q = none ∧ sp2 p q = some []))
    (pg : Nat) (st : LocSt) (e : Str) :
    processExcerpt sp pg st e = processExcerpt sp2 pg st e := by
  unfold processExcerpt
  split
  · rfl
  · rw [s1_congr sp sp2 h, s2_congr sp sp2 h, s3_congr sp sp2 h]

lemma v2Segment_congr (sp sp2 : SearchFn)
    (h : ∀ p q, sp p q = sp2 p q ∨ (sp p q = none ∧ sp2 p q = some []))
    (pg : Nat) (st : LocSt2) (seg : Str) :
    v2Segment sp pg st seg = v2Segment sp2 pg st seg := by
  unfold v2Segment
  dsimp only
  split
  · rfl
  · rcases h pg seg with heq | ⟨h1, h2⟩
    · rw [heq]
    · rw [h1, h2]
      rfl

/-- **C9.**  A search primitive that throws on some page/segment pairs
produces exactly the same Locator result (annotations, key set, call trace)
as one that returns no matches there: a failure is logged and skipped, the
iteration continues, and every annotation accepted from other pairs is still
returned.  This holds for both variants of the route. -/
theorem claim9_thm (sp sp2 : SearchFn)
    (h : ∀ p q, sp p q = sp2 p q ∨ (sp p q = none ∧ sp2 p q = some []))
    (numPages : Nat) (excerpts : List Str) :
    locateV1 sp numPages excerpts = locateV1 sp2 numPages excerpts ∧
    locateV2 sp numPages excerpts = locateV2 sp2 numPages excerpts := by
  constructor
  · unfold locateV1
    have hfun : processPage sp excerpts = processPage sp2 excerpts := by
      funext st pg
      unfold processPage
      have hstep : processExcerpt sp pg = processExcerpt sp2 pg := by
        funext st' e
        exact processExcerpt_congr sp sp2 h pg st' e
      rw [hstep]
    rw [hfun]
  · unfold locateV2
    have hfun : (fun (st : LocSt2) (pg : Nat) =>
        (uniqueSegments excerpts).foldl (v2Segment sp pg) st) =
        (fun (st : LocSt2) (pg : Nat) =>
          (uniqueSegments excerpts).foldl (v2Segment sp2 pg) st) := by
      funext st pg
      have hstep : v2Segment sp pg = v2Segment sp2 pg := by
        funext st' seg
        exact v2Segment_congr sp sp2 h pg st' seg
      rw [hstep]
    rw [hfun]

def spFail : SearchFn := fun _ q => if q = eC1 then none else some []

def spNoHit : SearchFn := fun _ _ => some []

/-- Witness for `claim9_thm`: a primitive throwing on one query versus one
returning no matches there. -/
theorem claim9_witness :
    locateV1 spFail 1 [eC1] = locateV1 spNoHit 1 [eC1] ∧
    locateV2 spFail 1 [eC1] = locateV2 spNoHit 1 [eC1] :=
  claim9_thm spFail spNoHit
    (by
      intro p q
      by_cases hq : q = eC1 <;> simp [spFail, spNoHit, hq])
    1 [eC1]

/-! ## Every accepted box is a returned quad's envelope (C5) -/

/-- Provenance of one annotation: some recorded search call returned a group
of quads one of which has this annotation's page and envelope. -/
def AnnFromCall (sp : SearchFn) (calls : List (Nat × Str)) (a : Ann) : Prop :=
  ∃ c ∈ calls, ∃ (qps : List (List Quad)) (q : Quad),
    sp c.1 c.2 = some qps ∧ q ∈ qps.flatten ∧
    a.pageNumber = c.1 + 1 ∧ a.coordinates = boxOfQuad q

lemma annFromCall_mono {sp : SearchFn} {calls calls2 : List (Nat × Str)}
    {a : Ann} (hsub : ∀ c ∈ calls, c ∈ calls2)
    (h : AnnFromCall sp calls a) : AnnFromCall sp calls2 a := by
  obtain ⟨c, hc, qps, q, h1, h2, h3, h4⟩ := h
  exact ⟨c, hsub c hc, qps, q, h1, h2, h3, h4⟩

/-- The provenance invariant on the locator state. -/
def ProvInv (sp : SearchFn) (st : LocSt) : Prop :=
  ∀ a ∈ st.anns, AnnFromCall sp st.calls a

/-- The bundled invariant threaded through one strategy's quad folds. -/
def QuadInv (sp : SearchFn) (c0 : Nat × Str) (st : LocSt) : Prop :=
  c0 ∈ st.calls ∧ ProvInv sp st

lemma quadInv_s1Quad {sp : SearchFn} (pg : Nat) (e : Str)
    (results : List (List Quad))
    (hsp : sp pg (jsTrim e) = some results) (st : LocSt)
    (qps : List Quad) (hqps : qps ∈ results) (q : Quad) (hq : q ∈ qps)
    (h : QuadInv sp (pg, jsTrim e) st) :
    QuadInv sp (pg, jsTrim e) (s1Quad pg e st q) := by
  obtain ⟨hc, hinv⟩ := h
  unfold s1Quad
  dsimp only
  split
  · exact ⟨hc, hinv⟩
  · refine ⟨hc, ?_⟩
    intro b hb
    rcases List.mem_append.mp hb with hb | hb
    · exact hinv b hb
    · rcases List.mem_singleton.mp hb with rfl
      exact ⟨(pg, jsTrim e), hc, results, q, hsp,
        List.mem_flatten.mpr ⟨qps, hqps, hq⟩, rfl, rfl⟩

lemma quadInv_checkedQuad {sp : SearchFn} (strat : Strat) (pg : Nat)
    (seg : Str) (c0q : Str) (results : List (List Quad))
    (hsp : sp pg c0q = some results) (st : LocSt)
    (qps : List Quad) (hqps : qps ∈ results) (q : Quad) (hq : q ∈ qps)
    (h : QuadInv sp (pg, c0q) st) :
    QuadInv sp (pg, c0q) (checkedQuad strat pg seg st q) := by
  obtain ⟨hc, hinv⟩ := h
  unfold checkedQuad
  dsimp only
  split
  · exact ⟨hc, hinv⟩
  · refine ⟨hc, ?_⟩
    intro b hb
    rcases List.mem_append.mp hb with hb | hb
    · exact hinv b hb
    · rcases List.mem_singleton.mp hb with rfl
      exact ⟨(pg, c0q), hc, results, q, hsp,
        List.mem_flatten.mpr ⟨qps, hqps, hq⟩, rfl, rfl⟩

lemma quadInv_foldQuads {sp : SearchFn} {c0 : Nat × Str}
    (f : LocSt → Quad → LocSt) (results : List (List Quad))
    (hf : ∀ st qps q, qps ∈ results → q ∈ qps →
      QuadInv sp c0 st → QuadInv sp c0 (f st q))
    (st : LocSt) (h : QuadInv sp c0 st) :
    QuadInv sp c0 (foldQuads f st results) := by
  refine foldl_preserve_mem (QuadInv sp c0) _ results ?_ st h
  intro st' qps hqps h'
  refine foldl_preserve_mem (QuadInv sp c0) f qps ?_ st' h'
  intro st2 q hq h2
  exact hf st2 qps q hqps hq h2

lemma provInv_extendCalls {sp : SearchFn} {st : LocSt} (more : List (Nat × Str))
    (h : ProvInv sp st) :
    ProvInv sp { st with calls := st.calls ++ more } := by
  intro a ha
  exact annFromCall_mono (fun c hc => List.mem_append_left _ hc) (h a ha)

lemma provInv_s1 (sp : SearchFn) (pg : Nat) (e : Str) (st : LocSt)
    (h : ProvInv sp st) : ProvInv sp (s1 sp pg e st) := by
  unfold s1
  dsimp only
  cases hsp : sp pg (jsTrim e) with
  | none => exact provInv_extendCalls _ h
  | some results =>
    have hstart : QuadInv sp (pg, jsTrim e)
        { st with calls := st.calls ++ [(pg, jsTrim e)] } :=
      ⟨List.mem_append_right _ (List.mem_singleton_self _),
        provInv_extendCalls _ h⟩
    exact (quadInv_foldQuads _ results
      (fun st2 qps q hqps hq h2 =>
        quadInv_s1Quad pg e results hsp st2 qps hqps q hq h2)
      _ hstart).2

lemma provInv_s2sentence (sp : SearchFn) (pg : Nat) (st : LocSt) (s : Str)
    (h : ProvInv sp st) : ProvInv sp (s2sentence sp pg st s) := by
  unfold s2sentence
  dsimp only
  cases hsp : sp pg (jsTrim s) with
  | none => exact provInv_extendCalls _ h
  | some results =>
    have hstart : QuadInv sp (pg, jsTrim s)
        { st with calls := st.calls ++ [(pg, jsTrim s)] } :=
      ⟨List.mem_append_right _ (List.mem_singleton_self _),
        provInv_extendCalls _ h⟩
    exact (quadInv_foldQuads _ results
      (fun st2 qps q hqps hq h2 =>
        quadInv_checkedQuad Strat.sentence pg s (jsTrim s) results hsp
          st2 qps hqps q hq h2)
      _ hstart).2

lemma provInv_s2 (sp : SearchFn) (pg : Nat) (e : Str) (st : LocSt)
    (h : ProvInv sp st) : ProvInv sp (s2 sp pg e st) :=
  foldl_preserve (ProvInv sp) _
    (fun st' s h' => provInv_s2sentence sp pg st' s h') _ st h

lemma provInv_s3 (sp : SearchFn) (pg : Nat) (e : Str) (st : LocSt)
    (h : ProvInv sp st) : ProvInv sp (s3 sp pg e st) := by
  unfold s3
  dsimp only
  split
  · exact h
  · refine foldl_preserve (ProvInv sp) _ ?_ _ st h
    intro st' i h'
    dsimp only
    split
    · cases hsp : sp pg (joinSpace
          (List.take (min 12 ((jsSplitWs e).length - i))
            (List.drop i (jsSplitWs e)))) with
      | none => exact provInv_extendCalls _ h'
      | some results =>
        have hstart : QuadInv sp
            (pg, joinSpace (List.take (min 12 ((jsSplitWs e).length - i))
              (List.drop i (jsSplitWs e))))
            { st' with calls := st'.calls ++
              [(pg, joinSpace (List.take (min 12 ((jsSplitWs e).length - i))
                (List.drop i (jsSplitWs e))))] } :=
          ⟨List.mem_append_right _ (List.mem_singleton_self _),
            provInv_extendCalls _ h'⟩
        exact (quadInv_foldQuads _ results
          (fun st2 qps q hqps hq h2 =>
            quadInv_checkedQuad Strat.phrase pg _ _ results hsp
              st2 qps hqps q hq h2)
          _ hstart).2
    · exact h'

lemma provInv_processExcerpt (sp : SearchFn) (pg : Nat) (st : LocSt) (e : Str)
    (h : ProvInv sp st) : ProvInv sp (processExcerpt sp pg st e) := by
  unfold processExcerpt
  split
  · exact h
  · exact provInv_s3 sp pg e _ (provInv_s2 sp pg e _ (provInv_s1 sp pg e st h))

def excA : Str := "Viruses cannot reproduce independently.".toList

def quadA : Quad := ⟨50, 70, 300, 70, 50, 82, 300, 82⟩

def spA : SearchFn := fun p q =>
  if p = 4 ∧ q = excA then some [[quadA]] else some []

def annA : Ann :=
  { pageNumber := 5, coordinates := ⟨50, 70, 250, 12⟩, excerpt := excA
    strategy := some Strat.fullExcerpt }

/-- **C5.**  Every annotation the enhanced Locator accepts carries the
axis-aligned envelope `x = min(ulx,llx)`, `y = min(uly,ury)`,
`width = max(urx,lrx) − min(ulx,llx)`, `height = max(lly,lry) − min(uly,ury)`
of a quad returned by a recorded search call, on that call's page; and on
Scenario A (the excerpt present verbatim on page 5 at one known quad) the
route returns exactly one annotation, with page number 5 and that quad's
envelope, and `highlightedPages = [5]`. -/
theorem claim5_thm :
    (∀ (sp : SearchFn) (numPages : Nat) (excerpts : List Str),
      ∀ a ∈ (locateV1 sp numPages excerpts).anns,
        ∃ c ∈ (locateV1 sp numPages excerpts).calls,
          ∃ (qps : List (List Quad)) (q : Quad),
            sp c.1 c.2 = some qps ∧ q ∈ qps.flatten ∧
            a.pageNumber = c.1 + 1 ∧
            a.coordinates =
              { x := min q.ulx q.llx, y := min q.uly q.ury
                width := max q.urx q.lrx - min q.ulx q.llx
                height := max q.lly q.lry - min q.uly q.ury }) ∧
    (apiV1 spA 5 [excA]).anns = [annA] ∧
    (apiV1 spA 5 [excA]).highlightedPages = [5] := by
  refine ⟨?_, by decide, by decide⟩
  intro sp numPages excerpts
  have hinv : ProvInv sp (locateV1 sp numPages excerpts) := by
    unfold locateV1
    refine foldl_preserve (ProvInv sp) _ ?_ _ _ ?_
    · intro st pg h
      unfold processPage
      exact foldl_preserve (ProvInv sp) _
        (fun st' e h' => provInv_processExcerpt sp pg st' e h') _ st h
    · intro a ha
      exact absurd ha (List.not_mem_nil a)
  exact hinv

/-- Witness for `claim5_thm` at a concrete accepted annotation of
Scenario A. -/
theorem claim5_witness :
    ∃ c ∈ (locateV1 spA 5 [excA]).calls,
      ∃ (qps : List (List Quad)) (q : Quad),
        spA c.1 c.2 = some qps ∧ q ∈ qps.flatten ∧
        annA.pageNumber = c.1 + 1 ∧
        annA.coordinates =
          { x := min q.ulx q.llx, y := min q.uly q.ury
            width := max q.urx q.lrx - min q.ulx q.llx
            height := max q.lly q.lry - min q.uly q.ury } :=
  claim5_thm.1 spA 5 [excA] annA (by decide)

/-! ## Page mappings group annotations; pages sorted and distinct (C8) -/

lemma addPage_nodup (ps : List Nat) (p : Nat) (h : ps.Nodup) :
    (addPage ps p).Nodup := by
  unfold addPage
  split
  · exact h
  · next hp =>
    rw [List.nodup_append]
    exact ⟨h, List.nodup_singleton p, by simpa using hp⟩

lemma mem_addPage (ps : List Nat) (p p2 : Nat) :
    p2 ∈ addPage ps p ↔ p2 ∈ ps ∨ p2 = p := by
  unfold addPage
  split
  · next hp =>
    constructor
    · exact Or.inl
    · rintro (h | rfl)
      · exact h
      · exact hp
  · simp

/-- The grouping invariant: each entry's pages are exactly the page numbers
of the processed annotations with that excerpt (without duplicates), and
every processed annotation has an entry. -/
def GoodMap (anns : List Ann) (m : List (Str × List Nat)) : Prop :=
  (∀ q ∈ m, q.2.Nodup ∧
    ∀ p, p ∈ q.2 ↔ ∃ a ∈ anns, a.excerpt = q.1 ∧ a.pageNumber = p) ∧
  (∀ a ∈ anns, ∃ q ∈ m, q.1 = a.excerpt)

lemma goodMap_step (anns : List Ann) (a : Ann) (m : List (Str × List Nat))
    (h : GoodMap anns m) :
    GoodMap (anns ++ [a]) (addToMapping m a.excerpt a.pageNumber) := by
  obtain ⟨h1, h2⟩ := h
  unfold addToMapping
  split
  · next hany =>
    constructor
    · intro q' hq'
      rcases List.mem_map.mp hq' with ⟨q, hq, rfl⟩
      obtain ⟨hnd, hmem⟩ := h1 q hq
      by_cases hqe : q.1 = a.excerpt
      · rw [if_pos hqe]
        refine ⟨addPage_nodup _ _ hnd, ?_⟩
        intro p
        rw [mem_addPage, hmem p]
        constructor
        · rintro (⟨b, hb, hbe, hbp⟩ | rfl)
          · exact ⟨b, List.mem_append_left _ hb, hbe, hbp⟩
          · exact ⟨a, List.mem_append_right _ (List.mem_singleton_self _),
              hqe.symm, rfl⟩
        · rintro ⟨b, hb, hbe, hbp⟩
          rcases List.mem_append.mp hb with hb | hb
          · exact Or.inl ⟨b, hb, hbe, hbp⟩
          · rcases List.mem_singleton.mp hb with rfl
            exact Or.inr hbp.symm
      · rw [if_neg hqe]
        refine ⟨hnd, ?_⟩
        intro p
        rw [hmem p]
        constructor
        · rintro ⟨b, hb, hbe, hbp⟩
          exact ⟨b, List.mem_append_left _ hb, hbe, hbp⟩
        · rintro ⟨b, hb, hbe, hbp⟩
          rcases List.mem_append.mp hb with hb | hb
          · exact ⟨b, hb, hbe, hbp⟩
          · rcases List.mem_singleton.mp hb with rfl
            exact absurd (hbe ▸ rfl) hqe
    · intro b hb
      rcases List.mem_append.mp hb with hb | hb
      · obtain ⟨q, hq, hqe⟩ := h2 b hb
        refine ⟨if q.1 = a.excerpt then (q.1, addPage q.2 a.pageNumber) else q,
          List.mem_map.mpr ⟨q, hq, rfl⟩, ?_⟩
        split <;> simpa using hqe
      · rcases List.mem_singleton.mp hb with rfl
        rcases List.any_eq_true.mp hany with ⟨q, hq, hqd⟩
        have hqe : q.1 = b.excerpt := by simpa using hqd
        refine ⟨(q.1, addPage q.2 b.pageNumber),
          List.mem_map.mpr ⟨q, hq, by rw [if_pos hqe]⟩, hqe⟩
  · next hany =>
    have hnone : ∀ q ∈ m, q.1 ≠ a.excerpt := by
      intro q hq
      have hanyf : m.any (fun q => decide (q.1 = a.excerpt)) = false :=
        Bool.eq_false_iff.mpr hany
      have := List.any_eq_false.mp hanyf q hq
      simpa using this
    constructor
    · intro q' hq'
      rcases List.mem_append.mp hq' with hqm | hqs
      · obtain ⟨hnd, hmem⟩ := h1 q' hqm
        refine ⟨hnd, ?_⟩
        intro p
        rw [hmem p]
        constructor
        · rintro ⟨b, hb, hbe, hbp⟩
          exact ⟨b, List.mem_append_left _ hb, hbe, hbp⟩
        · rintro ⟨b, hb, hbe, hbp⟩
          rcases List.mem_append.mp hb with hb | hb
          · exact ⟨b, hb, hbe, hbp⟩
          · rcases List.mem_singleton.mp hb with rfl
            exact absurd hbe.symm (hnone q' hqm)
      · rcases List.mem_singleton.mp hqs with rfl
        refine ⟨List.nodup_singleton _, ?_⟩
        intro p
        simp only [List.mem_singleton]
        constructor
        · rintro rfl
          exact ⟨a, List.mem_append_right _ (List.mem_singleton_self _),
            rfl, rfl⟩
        · rintro ⟨b, hb, hbe, hbp⟩
          rcases List.mem_append.mp hb with hb | hb
          · obtain ⟨q, hq, hqe⟩ := h2 b hb
            exact absurd (hqe.trans hbe) (hnone q hq)
          · rcases List.mem_singleton.mp hb with rfl
            exact hbp.symm
    · intro b hb
      rcases List.mem_append.mp hb with hb | hb
      · obtain ⟨q, hq, hqe⟩ := h2 b hb
        exact ⟨q, List.mem_append_left _ hq, hqe⟩
      · rcases List.mem_singleton.mp hb with rfl
        exact ⟨(b.excerpt, [b.pageNumber]),
          List.mem_append_right _ (List.mem_singleton_self _), rfl⟩

lemma goodMap_fold (l : List Ann) :
    ∀ (pre : List Ann) (m : List (Str × List Nat)), GoodMap pre m →
      GoodMap (pre ++ l)
        (l.foldl (fun m a => addToMapping m a.excerpt a.pageNumber) m) := by
  induction l with
  | nil =>
    intro pre m h
    simpa using h
  | cons a t ih =>
    intro pre m h
    have := ih (pre ++ [a]) _ (goodMap_step pre a m h)
    simpa [List.append_assoc] using this

lemma sortNat_sorted (l : List Nat) : (sortNat l).Sorted (· ≤ ·) :=
  List.sorted_insertionSort _ l

lemma mem_sortNat (l : List Nat) (x : Nat) : x ∈ sortNat l ↔ x ∈ l :=
  (List.perm_insertionSort _ l).mem_iff

lemma sortNat_nodup (l : List Nat) (h : l.Nodup) : (sortNat l).Nodup :=
  (List.perm_insertionSort _ l).nodup_iff.mpr h

lemma setDedup_nodup {α : Type} [DecidableEq α] (l : List α) :
    (setDedup l).Nodup := by
  unfold setDedup
  refine foldl_preserve (fun acc : List α => acc.Nodup) _ ?_ l []
    List.nodup_nil
  intro acc x h
  dsimp only
  split
  · exact h
  · next hx =>
    rw [List.nodup_append]
    exact ⟨h, List.nodup_singleton x, by simpa using hx⟩

/-- **C8.**  In every response of the enhanced route, each page-mapping
entry's pages are exactly the distinct page numbers of the accepted
annotations carrying that excerpt, without duplicates and sorted ascending;
every annotation has an entry; and `highlightedPages` is the
duplicate-free ascending list of exactly the pages holding at least one
annotation. -/
theorem claim8_thm (sp : SearchFn) (numPages : Nat) (excerpts : List Str) :
    (∀ mp ∈ (apiV1 sp numPages excerpts).pageMappings,
      mp.2.Nodup ∧ mp.2.Sorted (· ≤ ·) ∧
      (∀ p, p ∈ mp.2 ↔ ∃ a ∈ (apiV1 sp numPages excerpts).anns,
        a.excerpt = mp.1 ∧ a.pageNumber = p)) ∧
    (∀ a ∈ (apiV1 sp numPages excerpts).anns,
      ∃ mp ∈ (apiV1 sp numPages excerpts).pageMappings, mp.1 = a.excerpt) ∧
    (apiV1 sp numPages excerpts).highlightedPages.Nodup ∧
    (apiV1 sp numPages excerpts).highlightedPages.Sorted (· ≤ ·) ∧
    (∀ p, p ∈ (apiV1 sp numPages excerpts).highlightedPages ↔
      ∃ a ∈ (apiV1 sp numPages excerpts).anns, a.pageNumber = p) := by
  have hg : GoodMap (locateV1 sp numPages excerpts).anns
      ((locateV1 sp numPages excerpts).anns.foldl
        (fun m a => addToMapping m a.excerpt a.pageNumber) []) := by
    have := goodMap_fold (locateV1 sp numPages excerpts).anns [] []
      ⟨fun q hq => absurd hq (List.not_mem_nil q),
        fun a ha => absurd ha (List.not_mem_nil a)⟩
    simpa using this
  obtain ⟨hg1, hg2⟩ := hg
  refine ⟨?_, ?_, ?_, ?_, ?_⟩
  · intro mp hmp
    have hmp2 : mp ∈ mkPageMappings (locateV1 sp numPages excerpts).anns := hmp
    unfold mkPageMappings at hmp2
    rcases List.mem_map.mp hmp2 with ⟨q, hq, rfl⟩
    obtain ⟨hnd, hmem⟩ := hg1 q hq
    refine ⟨sortNat_nodup _ hnd, sortNat_sorted _, fun p => ?_⟩
    rw [mem_sortNat, hmem p]
    exact Iff.rfl
  · intro a ha
    obtain ⟨q, hq, hqe⟩ := hg2 a ha
    exact ⟨(q.1, sortNat q.2),
      List.mem_map.mpr ⟨q, hq, rfl⟩, hqe⟩
  · exact sortNat_nodup _ (setDedup_nodup _)
  · exact sortNat_sorted _
  · intro p
    show p ∈ sortNat (setDedup
      ((locateV1 sp numPages excerpts).anns.map (fun a => a.pageNumber))) ↔ _
    rw [mem_sortNat, mem_setDedup, List.mem_map]
    constructor
    · rintro ⟨a, ha, rfl⟩
      exact ⟨a, ha, rfl⟩
    · rintro ⟨a, ha, rfl⟩
      exact ⟨a, ha, rfl⟩

/-- Witness for `claim8_thm` on the Scenario A run. -/
theorem claim8_witness :
    (excA, [5]).2.Nodup ∧ (excA, ([5] : List Nat)).2.Sorted (· ≤ ·) ∧
    (∀ p, p ∈ (excA, ([5] : List Nat)).2 ↔
      ∃ a ∈ (apiV1 spA 5 [excA]).anns,
        a.excerpt = (excA, ([5] : List Nat)).1 ∧ a.pageNumber = p) :=
  (claim8_thm spA 5 [excA]).1 (excA, [5]) (by decide)

end StudyFetch
